import Mathlib

/-!
# Verification of the Raft consensus core of BU-TicketChain

Shallow embedding of `src/backend/src/raft/index.ts` (class `RaftNode`).
The class fields `this.config` (nodeId, peers), `this.state` (currentTerm,
votedFor, log, commitIndex, lastApplied), `this.role`, `this.leaderId`,
`this.nextIndex` and `this.matchIndex` are flattened into one `Node`
structure.  Timers, logging, the HTTP transport and the `pendingRequests`
resolver map are side effects outside the replicated state and are not
modelled; where an operation sends RPCs, the requests it would send are
returned explicitly.  JS `Record<string, number>` maps become association
lists with the same `?? 0` / `|| 1` defaulting as the source.
-/

namespace TicketChainRaft

/-- Embedding of `enum NodeRole` from the source. -/
inductive NodeRole where
  | Follower
  | Candidate
  | Leader
deriving DecidableEq, Repr

/-- Embedding of `type Command`: the four replicated command shapes.  The
payload fields are carried verbatim; the consensus core never inspects
them. -/
inductive Command where
  | ticketPurchase (eventId userId txHash : String)
  | ticketTransfer (ticketId fromUser toUser txHash : String)
  | ticketRefund (ticketId userId txHash : String)
  | eventCreate (eventId name : String)
deriving DecidableEq, Repr

/-- Embedding of `interface LogEntry { term, index, command }`. -/
structure LogEntry where
  term : Nat
  index : Nat
  command : Command
deriving DecidableEq, Repr

/-- The flattened state of one `RaftNode` instance (config + RaftState +
role + leaderId + leader-volatile maps). -/
structure Node where
  nodeId : String
  peers : List String
  currentTerm : Nat
  votedFor : Option String
  log : List LogEntry
  commitIndex : Nat
  lastApplied : Nat
  role : NodeRole
  leaderId : Option String
  nextIndex : List (String × Nat)
  matchIndex : List (String × Nat)
deriving DecidableEq, Repr

/-- Embedding of `interface RequestVoteRequest`. -/
structure RequestVoteRequest where
  term : Nat
  candidateId : String
  lastLogIndex : Nat
  lastLogTerm : Nat
deriving DecidableEq, Repr

/-- Embedding of `interface RequestVoteResponse`. -/
structure RequestVoteResponse where
  term : Nat
  voteGranted : Bool
deriving DecidableEq, Repr

/-- Embedding of `interface AppendEntriesRequest`. -/
structure AppendEntriesRequest where
  term : Nat
  leaderId : String
  prevLogIndex : Nat
  prevLogTerm : Nat
  entries : List LogEntry
  leaderCommit : Nat
deriving DecidableEq, Repr

/-- Embedding of `interface AppendEntriesResponse` (`matchIndex?` is
optional). -/
structure AppendEntriesResponse where
  term : Nat
  success : Bool
  matchIndex : Option Nat
deriving DecidableEq, Repr

/-- The constructor `new RaftNode(config)`: FOLLOWER, term 0, empty log. -/
def initNode (nodeId : String) (peers : List String) : Node :=
  { nodeId := nodeId
    peers := peers
    currentTerm := 0
    votedFor := none
    log := []
    commitIndex := 0
    lastApplied := 0
    role := .Follower
    leaderId := none
    nextIndex := []
    matchIndex := [] }

/-- JS `record[key] ?? 0` on the `matchIndex` map. -/
def lookupD0 (m : List (String × Nat)) (k : String) : Nat :=
  (m.lookup k).getD 0

/-- JS `record[key] || 1` on the `nextIndex` map: both a missing key and a
stored `0` yield `1`. -/
def lookupOr1 (m : List (String × Nat)) (k : String) : Nat :=
  match m.lookup k with
  | some v => if v = 0 then 1 else v
  | none => 1

/-- JS `record[key] = v` on an association-list map. -/
def setKey (m : List (String × Nat)) (k : String) (v : Nat) : List (String × Nat) :=
  (k, v) :: m.eraseP (fun p => p.1 == k)

/-- JS `this.state.log[i - 1].term` for a 1-based index `i`, with `0` when
the access would be out of range (every use in the source is guarded so
that it is in range). -/
def termAt (log : List LogEntry) (i : Nat) : Nat :=
  ((log.get? (i - 1)).map LogEntry.term).getD 0

/-- Term of the last log entry: `len > 0 ? log[len - 1].term : 0`. -/
def lastTerm (log : List LogEntry) : Nat :=
  if log.length > 0 then ((log.get? (log.length - 1)).map LogEntry.term).getD 0 else 0

/-- Embedding of `becomeFollower(term)`: FOLLOWER, adopt the term, clear
`votedFor`.  (The timer moves and the rejection of pending requests are
side effects.) -/
def becomeFollower (n : Node) (term : Nat) : Node :=
  { n with role := .Follower, currentTerm := term, votedFor := none }

/-- Embedding of `isLogUpToDate(lastLogIndex, lastLogTerm)`: higher last
term wins; on equal last terms a longer-or-equal index wins. -/
def isLogUpToDate (n : Node) (lastLogIndex lastLogTerm : Nat) : Bool :=
  let ourLastIndex := n.log.length
  let ourLastTerm := lastTerm n.log
  if lastLogTerm ≠ ourLastTerm then lastLogTerm > ourLastTerm
  else lastLogIndex ≥ ourLastIndex

/-- Embedding of `handleRequestVote(request)`. -/
def handleRequestVote (n : Node) (request : RequestVoteRequest) :
    Node × RequestVoteResponse :=
  if request.term < n.currentTerm then
    (n, { term := n.currentTerm, voteGranted := false })
  else
    let n := if request.term > n.currentTerm then becomeFollower n request.term else n
    let canVote :=
      (n.votedFor = none ∨ n.votedFor = some request.candidateId) ∧
        isLogUpToDate n request.lastLogIndex request.lastLogTerm = true
    if canVote then
      let n := { n with votedFor := some request.candidateId }
      (n, { term := n.currentTerm, voteGranted := true })
    else
      (n, { term := n.currentTerm, voteGranted := false })

/-- The body of `applyCommittedEntries()`, recursion made structural on a
fuel argument: each iteration of `while (lastApplied < commitIndex)`
increments `lastApplied` (the hand-off of the entry to the apply callback
and the resolution of the pending request are side effects outside the
modelled state). -/
def applyLoop : Nat → Node → Node
  | 0, n => n
  | fuel + 1, n =>
    if n.lastApplied < n.commitIndex then
      applyLoop fuel { n with lastApplied := n.lastApplied + 1 }
    else n

/-- Embedding of `applyCommittedEntries()`.  The loop runs exactly
`commitIndex - lastApplied` times (each iteration raises `lastApplied` by
one and stops as soon as `lastApplied < commitIndex` fails), so that fuel
is exact. -/
def applyCommittedEntries (n : Node) : Node :=
  applyLoop (n.commitIndex - n.lastApplied) n

/-- Embedding of `handleAppendEntries(request)`. -/
def handleAppendEntries (n : Node) (request : AppendEntriesRequest) :
    Node × AppendEntriesResponse :=
  if request.term < n.currentTerm then
    (n, { term := n.currentTerm, success := false, matchIndex := none })
  else
    -- request.term >= currentTerm: recognize the leader
    let n := { becomeFollower n request.term with leaderId := some request.leaderId }
    -- log consistency check
    if request.prevLogIndex > 0 ∧ request.prevLogIndex > n.log.length then
      (n, { term := n.currentTerm, success := false, matchIndex := none })
    else if request.prevLogIndex > 0 ∧ termAt n.log request.prevLogIndex ≠ request.prevLogTerm then
      -- delete conflicting entries
      let n := { n with log := n.log.take (request.prevLogIndex - 1) }
      (n, { term := n.currentTerm, success := false, matchIndex := none })
    else
      -- append new entries
      let n := if request.entries.length > 0 then
          { n with log := n.log.take request.prevLogIndex ++ request.entries }
        else n
      -- update commit index from leader
      let n := if request.leaderCommit > n.commitIndex then
          applyCommittedEntries
            { n with commitIndex := min request.leaderCommit n.log.length }
        else n
      (n, { term := n.currentTerm, success := true, matchIndex := some n.log.length })

/-- Majority threshold `Math.floor((peers.length + 1) / 2) + 1`, as computed
in `startElection` (there called `votesNeeded`) and in `tryCommit`. -/
def majority (n : Node) : Nat := (n.peers.length + 1) / 2 + 1

/-- The replica count `tryCommit` computes for index `i`: self plus every
peer with `(matchIndex[peer] ?? 0) >= i`. -/
def countReplicas (n : Node) (i : Nat) : Nat :=
  1 + (n.peers.filter (fun p => lookupD0 n.matchIndex p ≥ i)).length

/-- The descending scan of `tryCommit()`: `for (n = len; n > commitIndex;
n--)`, skipping entries whose term is not the current term, committing the
first majority-replicated index found and stopping there.  Structural
recursion on the loop counter itself. -/
def tryCommitLoop (n : Node) : Nat → Node
  | 0 => n
  | i + 1 =>
    if i + 1 > n.commitIndex then
      if termAt n.log (i + 1) ≠ n.currentTerm then tryCommitLoop n i
      else if countReplicas n (i + 1) ≥ majority n then
        applyCommittedEntries { n with commitIndex := i + 1 }
      else tryCommitLoop n i
    else n

/-- Embedding of `tryCommit()` (leader only). -/
def tryCommit (n : Node) : Node :=
  if n.role ≠ .Leader then n else tryCommitLoop n n.log.length

/-- Embedding of `becomeLeader()`: LEADER, own id as leader, fresh
`nextIndex`/`matchIndex` for every peer.  (Heartbeat scheduling and the
election callback are side effects.) -/
def becomeLeader (n : Node) : Node :=
  if n.role = .Leader then n
  else
    let n := { n with role := .Leader, leaderId := some n.nodeId }
    let lastLogIndex := n.log.length
    { n with
      nextIndex := n.peers.map (fun p => (p, lastLogIndex + 1))
      matchIndex := n.peers.map (fun p => (p, 0)) }

/-- The synchronous prefix of `startElection()`: become Candidate, bump the
term, vote for self, clear `leaderId`; with no peers become Leader at once,
otherwise emit the `RequestVote` request that is sent to every peer. -/
def startElection (n : Node) : Node × Option RequestVoteRequest :=
  let n := { n with
    role := .Candidate
    currentTerm := n.currentTerm + 1
    votedFor := some n.nodeId
    leaderId := none }
  if n.peers.length = 0 then (becomeLeader n, none)
  else
    (n, some { term := n.currentTerm, candidateId := n.nodeId,
               lastLogIndex := n.log.length, lastLogTerm := lastTerm n.log })

/-- The vote-response callback inside `startElection`: ignore the response
when no longer a Candidate of the election's term, step down on a higher
term, count a granted vote, and become Leader on reaching `votesNeeded`.
`votesReceived` is the callback's closure-local counter, passed
explicitly. -/
def handleVoteResponse (n : Node) (electionTerm votesReceived : Nat)
    (response : RequestVoteResponse) : Node × Nat :=
  if n.role ≠ .Candidate ∨ n.currentTerm ≠ electionTerm then (n, votesReceived)
  else if response.term > n.currentTerm then (becomeFollower n response.term, votesReceived)
  else if response.voteGranted then
    let v := votesReceived + 1
    if v ≥ majority n ∧ n.role = .Candidate then (becomeLeader n, v) else (n, v)
  else (n, votesReceived)

/-- The request construction of `replicateToPeer(peer)`; also returns the
`nextIdx` the leader read for the peer. -/
def mkAppendRequest (n : Node) (peer : String) : AppendEntriesRequest × Nat :=
  let nextIdx := lookupOr1 n.nextIndex peer
  let prevLogIndex := nextIdx - 1
  let prevLogTerm := if prevLogIndex > 0 then termAt n.log prevLogIndex else 0
  ({ term := n.currentTerm, leaderId := n.nodeId, prevLogIndex := prevLogIndex,
     prevLogTerm := prevLogTerm, entries := n.log.drop (nextIdx - 1),
     leaderCommit := n.commitIndex },
   nextIdx)

/-- What `replicateToPeer` does after the reply: `steppedDown` (higher
term), `notLeader` (lost leadership meanwhile), `updated` (success:
progress recorded and `tryCommit` run), or `retry k` (failure:
`nextIndex[peer] = k` and an immediate resend). -/
inductive ReplicateOutcome where
  | steppedDown
  | notLeader
  | updated
  | retry (newNextIndex : Nat)
deriving DecidableEq, Repr

/-- The response handling of `replicateToPeer(peer)`: `nextIdx`,
`prevLogIndex` and `entriesSent` are the values the closure computed before
the RPC. -/
def processAppendResponse (n : Node) (peer : String)
    (nextIdx prevLogIndex entriesSent : Nat)
    (response : AppendEntriesResponse) : Node × ReplicateOutcome :=
  if response.term > n.currentTerm then (becomeFollower n response.term, .steppedDown)
  else if n.role ≠ .Leader then (n, .notLeader)
  else if response.success then
    let newMatchIndex := response.matchIndex.getD (prevLogIndex + entriesSent)
    let n := { n with
      nextIndex := setKey n.nextIndex peer (newMatchIndex + 1)
      matchIndex := setKey n.matchIndex peer newMatchIndex }
    (tryCommit n, .updated)
  else
    ({ n with nextIndex := setKey n.nextIndex peer (max 1 (nextIdx - 1)) },
     .retry (max 1 (nextIdx - 1)))

/-- The result `submitCommand` hands back synchronously: an immediate
error, a synchronously committed index (single-node fast path), or a
registered pending request awaiting majority replication. -/
inductive SubmitResult where
  | error (msg : String)
  | committed (index : Nat)
  | pending (index : Nat)
deriving DecidableEq, Repr

/-- True exactly on the `error` constructor. -/
def SubmitResult.isErr : SubmitResult → Bool
  | .error _ => true
  | _ => false

/-- The `AppendEntries` requests a call to `replicateLog()` sends: one per
peer, leader only. -/
def replicateLogRequests (n : Node) : List AppendEntriesRequest :=
  if n.role ≠ .Leader then [] else n.peers.map (fun p => (mkAppendRequest n p).1)

/-- Embedding of `submitCommand(command)`: returns the post-state, the
synchronous result, and the RPC requests the call itself sends. -/
def submitCommand (n : Node) (command : Command) :
    Node × SubmitResult × List AppendEntriesRequest :=
  if n.role ≠ .Leader then
    match n.leaderId with
    | some l => (n, .error ("Not leader. Current leader: " ++ l), [])
    | none => (n, .error ("No leader available"), [])
  else
    let entry : LogEntry :=
      { term := n.currentTerm, index := n.log.length + 1, command := command }
    let n := { n with log := n.log ++ [entry] }
    if n.peers.length = 0 then
      let n := applyCommittedEntries { n with commitIndex := entry.index }
      (n, .committed entry.index, [])
    else
      (n, .pending entry.index, replicateLogRequests n)

/-- Invariant from the spec: `lastApplied ≤ commitIndex ≤ len(log)`. -/
def StateInv (n : Node) : Prop :=
  n.lastApplied ≤ n.commitIndex ∧ n.commitIndex ≤ n.log.length

instance (n : Node) : Decidable (StateInv n) := by
  unfold StateInv; infer_instance

/-! ## Concrete instances

Named nodes, requests and traces used to evaluate the operations on
concrete inputs. -/

/-- A sample replicated command. -/
def cmd0 : Command := .eventCreate ("e1") ("concert")

/-- A sample log entry of term 1 at index 1. -/
def entry1 : LogEntry := { term := 1, index := 1, command := cmd0 }

/-- A sample log entry of term 1 at index 2. -/
def entry2 : LogEntry := { term := 1, index := 2, command := cmd0 }

/-- Fallback request used only to strip the `Option` from `startElection`
(never actually selected on the traces below). -/
def dummyVoteRequest : RequestVoteRequest :=
  { term := 0, candidateId := ("?"), lastLogIndex := 0, lastLogTerm := 0 }

/-! ### A three-node trace ending with two leaders of the same term

Nodes A, B, C start fresh.  A wins an election for term 1 with C's vote,
then heartbeats C; the heartbeat (same term 1) runs `becomeFollower` on C
and erases C's vote.  B then starts its own election for term 1 and C,
whose `votedFor` is `null` again, grants a second vote for the same term,
so B also becomes Leader of term 1. -/

/-- Node A at start: peers B and C. -/
def nodeA0 : Node := initNode ("A") [("B"), ("C")]

/-- Node B at start: peers A and C. -/
def nodeB0 : Node := initNode ("B") [("A"), ("C")]

/-- Node C at start: peers A and B. -/
def nodeC0 : Node := initNode ("C") [("A"), ("B")]

/-- A's election timer fires: A becomes Candidate of term 1. -/
def nodeA1 : Node := (startElection nodeA0).1

/-- The `RequestVote` A broadcasts for term 1. -/
def reqA : RequestVoteRequest := (startElection nodeA0).2.getD dummyVoteRequest

/-- C receives A's vote request and grants it. -/
def nodeC1 : Node := (handleRequestVote nodeC0 reqA).1

/-- C's response to A's vote request. -/
def respCA : RequestVoteResponse := (handleRequestVote nodeC0 reqA).2

/-- A processes C's granted vote (self vote + C = 2 of 3) and becomes
Leader of term 1. -/
def nodeA2 : Node := (handleVoteResponse nodeA1 1 1 respCA).1

/-- The heartbeat Leader A sends to C. -/
def hbAC : AppendEntriesRequest := (mkAppendRequest nodeA2 ("C")).1

/-- C after accepting A's term-1 heartbeat: its vote for A is erased. -/
def nodeC2 : Node := (handleAppendEntries nodeC1 hbAC).1

/-- B's election timer fires: B becomes Candidate of term 1 as well. -/
def nodeB1 : Node := (startElection nodeB0).1

/-- The `RequestVote` B broadcasts for term 1. -/
def reqB : RequestVoteRequest := (startElection nodeB0).2.getD dummyVoteRequest

/-- C receives B's vote request; `votedFor` was reset by the heartbeat, so
C grants a second vote in term 1. -/
def respCB : RequestVoteResponse := (handleRequestVote nodeC2 reqB).2

/-- B processes C's granted vote and becomes a second Leader of term 1. -/
def nodeB2 : Node := (handleVoteResponse nodeB1 1 1 respCB).1

/-! ### Inputs for the remaining concrete evaluations -/

/-- A follower holding one entry of term 1, at term 1. -/
def c3node : Node :=
  { initNode ("F") [("L")] with currentTerm := 1, log := [entry1] }

/-- An accepted heartbeat (empty `entries`, `prevLogIndex = 0`) of the
follower's own term. -/
def c3req : AppendEntriesRequest :=
  { term := 1, leaderId := ("L"), prevLogIndex := 0, prevLogTerm := 0,
    entries := [], leaderCommit := 0 }

/-- A leader of term 1 with an empty log whose peer F is fully reset. -/
def c4leader : Node :=
  { initNode ("L") [("F")] with
    currentTerm := 1
    role := .Leader
    leaderId := some ("L")
    nextIndex := [(("F"), 1)]
    matchIndex := [(("F"), 0)] }

/-- A follower of term 1 that already holds one entry the leader does not
know about. -/
def c4follower : Node :=
  { initNode ("F") [("L")] with currentTerm := 1, log := [entry1] }

/-- The request `replicateToPeer` builds for F: a heartbeat with
`prevLogIndex = 0` and no entries. -/
def c4req : AppendEntriesRequest := (mkAppendRequest c4leader ("F")).1

/-- F's (successful) response, reporting `matchIndex = 1`. -/
def c4resp : AppendEntriesResponse := (handleAppendEntries c4follower c4req).2

/-- The leader after processing F's response. -/
def c4post : Node :=
  (processAppendResponse c4leader ("F") (mkAppendRequest c4leader ("F")).2
    c4req.prevLogIndex c4req.entries.length c4resp).1

/-- A leader of term 1 holding one entry of term 1, replicating to F. -/
def c4leaderNE : Node :=
  { initNode ("L") [("F")] with
    currentTerm := 1
    role := .Leader
    leaderId := some ("L")
    log := [entry1]
    nextIndex := [(("F"), 1)]
    matchIndex := [(("F"), 0)] }

/-- A fresh follower for the nonempty-entries replication round. -/
def c4followerNE : Node := initNode ("F") [("L")]

/-- The request `replicateToPeer` builds for F from `c4leaderNE`: one entry
after `prevLogIndex = 0`. -/
def c4wreq : AppendEntriesRequest := (mkAppendRequest c4leaderNE ("F")).1

/-- A follower whose single entry is already committed. -/
def c5node : Node :=
  { initNode ("F") [("L")] with
    currentTerm := 1
    log := [entry1]
    commitIndex := 1
    lastApplied := 1 }

/-- A same-term request whose `prevLogTerm` conflicts with the follower's
committed entry at index 1. -/
def c5req : AppendEntriesRequest :=
  { term := 1, leaderId := ("L"), prevLogIndex := 1, prevLogTerm := 2,
    entries := [], leaderCommit := 0 }

/-- A consistent same-term request extending `c5node`'s log at index 2. -/
def c5wreq : AppendEntriesRequest :=
  { term := 1, leaderId := ("L"), prevLogIndex := 1, prevLogTerm := 1,
    entries := [entry2], leaderCommit := 0 }

/-- A follower with two committed and applied entries. -/
def c6node : Node :=
  { initNode ("F") [("L")] with
    currentTerm := 1
    log := [entry1, entry2]
    commitIndex := 2
    lastApplied := 2 }

/-- A same-term request that rewrites the log from index 1 with a single
entry while advertising `leaderCommit = 3`. -/
def c6req : AppendEntriesRequest :=
  { term := 1, leaderId := ("L"), prevLogIndex := 0, prevLogTerm := 0,
    entries := [entry1], leaderCommit := 3 }

/-- A leader of term 1 whose entry at index 1 is replicated on B (but not
on C): together with the leader that is 2 of 3, a majority. -/
def c7node : Node :=
  { initNode ("L") [("B"), ("C")] with
    currentTerm := 1
    role := .Leader
    leaderId := some ("L")
    log := [entry1]
    nextIndex := [(("B"), 2), (("C"), 1)]
    matchIndex := [(("B"), 1), (("C"), 0)] }

/-- A freshly elected single-node leader (no peers). -/
def c8node : Node :=
  { initNode ("node-1") [] with role := .Leader, leaderId := some ("node-1") }

/-- A follower that knows the current leader's id. -/
def c9node : Node :=
  { initNode ("F") [("L")] with currentTerm := 3, leaderId := some ("L") }

/-- A follower of term 1 that has already voted for A in term 1. -/
def c10node : Node :=
  { initNode ("C") [("A"), ("B")] with currentTerm := 1, votedFor := some ("A") }

/-- A term-1 heartbeat from B, equal to the receiver's current term. -/
def c10req : AppendEntriesRequest :=
  { term := 1, leaderId := ("B"), prevLogIndex := 0, prevLogTerm := 0,
    entries := [], leaderCommit := 0 }

/-! ## Supporting lemmas -/

/-- The apply loop, run with enough fuel, raises `lastApplied` to
`commitIndex` (or leaves it if already there) and changes nothing else. -/
theorem applyLoop_spec (fuel : Nat) (n : Node) (h : n.commitIndex ≤ n.lastApplied + fuel) :
    applyLoop fuel n = { n with lastApplied := max n.lastApplied n.commitIndex } := by
  induction fuel generalizing n with
  | zero =>
    have hm : max n.lastApplied n.commitIndex = n.lastApplied := by omega
    simp [applyLoop, hm]
  | succ fuel ih =>
    by_cases hlt : n.lastApplied < n.commitIndex
    · rw [applyLoop, if_pos hlt, ih _ (by simp; omega)]
      have hm : max (n.lastApplied + 1) n.commitIndex = max n.lastApplied n.commitIndex := by
        omega
      simp only [hm]
    · rw [applyLoop, if_neg hlt]
      have hm : max n.lastApplied n.commitIndex = n.lastApplied := by omega
      simp [hm]

/-- Characterization of `applyCommittedEntries`: only `lastApplied` moves,
up to `commitIndex`. -/
theorem applyCommittedEntries_spec (n : Node) :
    applyCommittedEntries n = { n with lastApplied := max n.lastApplied n.commitIndex } :=
  applyLoop_spec _ n (by omega)

/-- Unfolding of the up-to-date check: the candidate wins on a strictly
higher last term, or on an equal last term with an index at least the
voter's log length. -/
theorem isLogUpToDate_iff (n : Node) (i t : Nat) :
    isLogUpToDate n i t = true ↔
      (t > lastTerm n.log ∨ (t = lastTerm n.log ∧ i ≥ n.log.length)) := by
  unfold isLogUpToDate
  by_cases h : t = lastTerm n.log <;> simp [h]

/-- Case analysis on the `tryCommit` scan: either it changes nothing, or it
commits some index `k ≤ i` above the old `commitIndex` whose entry carries
the current term and which a majority has replicated, applying up to `k`. -/
theorem tryCommitLoop_cases (n : Node) (i : Nat) :
    tryCommitLoop n i = n ∨
    ∃ k, n.commitIndex < k ∧ k ≤ i ∧ termAt n.log k = n.currentTerm ∧
      countReplicas n k ≥ majority n ∧
      tryCommitLoop n i =
        { n with commitIndex := k, lastApplied := max n.lastApplied k } := by
  induction i with
  | zero => left; rfl
  | succ i ih =>
    by_cases hgt : i + 1 > n.commitIndex
    · by_cases hterm : termAt n.log (i + 1) ≠ n.currentTerm
      · rw [tryCommitLoop, if_pos hgt, if_pos hterm]
        rcases ih with h | ⟨k, h1, h2, h3, h4, h5⟩
        · left; exact h
        · right; exact ⟨k, h1, Nat.le_succ_of_le h2, h3, h4, h5⟩
      · by_cases hcount : countReplicas n (i + 1) ≥ majority n
        · rw [tryCommitLoop, if_pos hgt, if_neg hterm, if_pos hcount]
          right
          refine ⟨i + 1, hgt, Nat.le_refl _, not_not.mp hterm, hcount, ?_⟩
          rw [applyCommittedEntries_spec]
        · rw [tryCommitLoop, if_pos hgt, if_neg hterm, if_neg hcount]
          rcases ih with h | ⟨k, h1, h2, h3, h4, h5⟩
          · left; exact h
          · right; exact ⟨k, h1, Nat.le_succ_of_le h2, h3, h4, h5⟩
    · rw [tryCommitLoop, if_neg hgt]
      left; rfl

/-- The scan in `tryCommit` never changes the leader-volatile replication
maps. -/
theorem tryCommit_maps (m : Node) :
    (tryCommit m).nextIndex = m.nextIndex ∧ (tryCommit m).matchIndex = m.matchIndex := by
  by_cases hr : m.role = .Leader
  · have hunf : tryCommit m = tryCommitLoop m m.log.length := by
      unfold tryCommit
      rw [if_neg (by simp [hr])]
    rw [hunf]
    rcases tryCommitLoop_cases m m.log.length with hc | ⟨k, _, _, _, _, h5⟩
    · rw [hc]; exact ⟨rfl, rfl⟩
    · rw [h5]; exact ⟨rfl, rfl⟩
  · have hunf : tryCommit m = m := by
      unfold tryCommit
      rw [if_pos hr]
    rw [hunf]; exact ⟨rfl, rfl⟩

/-- A successful `AppendEntries` call that carried at least one entry
reports `matchIndex = prevLogIndex + len(entries)`: the receiver's log
becomes `take prevLogIndex log ++ entries` and `prevLogIndex` is forced
to be at most the old log length by the consistency check. -/
theorem appendEntries_matchIndex (f : Node) (r : AppendEntriesRequest)
    (hs : (handleAppendEntries f r).2.success = true) (he : r.entries ≠ []) :
    (handleAppendEntries f r).2.matchIndex =
      some (r.prevLogIndex + r.entries.length) := by
  unfold handleAppendEntries at hs ⊢
  by_cases ht : r.term < f.currentTerm
  · rw [if_pos ht] at hs
    simp at hs
  · rw [if_neg ht] at hs ⊢
    by_cases hA : r.prevLogIndex > 0 ∧ r.prevLogIndex > f.log.length
    · rw [if_pos (by simpa [becomeFollower] using hA)] at hs
      simp at hs
    · rw [if_neg (by simpa [becomeFollower] using hA)] at hs ⊢
      by_cases hB : r.prevLogIndex > 0 ∧ termAt f.log r.prevLogIndex ≠ r.prevLogTerm
      · rw [if_pos (by simpa [becomeFollower] using hB)] at hs
        simp at hs
      · rw [if_neg (by simpa [becomeFollower] using hB)]
        have hpos : 0 < r.entries.length := List.length_pos.mpr he
        have hmin : min r.prevLogIndex f.log.length = r.prevLogIndex := by omega
        simp only [becomeFollower]
        simp only [hpos, if_true, gt_iff_lt]
        split_ifs <;>
          simp [applyCommittedEntries_spec, List.length_take, List.length_append,
            hmin, Nat.add_comm]

/-! ## Claim theorems -/

/-- C2: `handleRequestVote` grants the vote iff (a) the request's term is
at least the current term (the node first adopts a strictly greater term
and becomes Follower, which clears `votedFor`), (b) the (possibly cleared)
`votedFor` is empty or already the candidate, and (c) the candidate's log
is at least as up to date: a strictly higher `lastLogTerm` wins, and on
equal last terms `lastLogIndex ≥` the voter's log length wins. -/
theorem requestVote_grant_rule (n : Node) (request : RequestVoteRequest) :
    ((handleRequestVote n request).2.voteGranted = true ↔
      (request.term ≥ n.currentTerm ∧
        ((if request.term > n.currentTerm then none else n.votedFor) = none ∨
          (if request.term > n.currentTerm then none else n.votedFor) =
            some request.candidateId) ∧
        (request.lastLogTerm > lastTerm n.log ∨
          (request.lastLogTerm = lastTerm n.log ∧
            request.lastLogIndex ≥ n.log.length)))) ∧
    (request.term > n.currentTerm →
      (handleRequestVote n request).1.role = .Follower ∧
      (handleRequestVote n request).1.currentTerm = request.term) := by
  simp only [handleRequestVote, becomeFollower]
  split_ifs <;> simp_all [isLogUpToDate_iff, lastTerm] <;> omega

/-- Witness for C2 at a concrete input: node C, which has not voted in
term 1, grants candidate A's term-1 request (A's empty log is up to date),
and C steps down to A's term. -/
theorem requestVote_grant_rule_witness :
    respCA.voteGranted = true ∧ reqA.term > nodeC0.currentTerm ∧
    nodeC1.role = .Follower ∧ nodeC1.currentTerm = reqA.term := by
  have h := (requestVote_grant_rule nodeC0 reqA).2 (by decide)
  exact ⟨by decide, by decide, h.1, h.2⟩

/-- C10: every `AppendEntries` request whose term is at least the current
term makes the receiver a Follower with `votedFor` reset to none — also
when the terms are exactly equal, so a vote already cast in the current
term is erased by any heartbeat of that same term. -/
theorem appendEntries_clears_vote (n : Node) (request : AppendEntriesRequest)
    (h : request.term ≥ n.currentTerm) :
    (handleAppendEntries n request).1.role = .Follower ∧
    (handleAppendEntries n request).1.votedFor = none ∧
    (handleAppendEntries n request).1.currentTerm = request.term := by
  unfold handleAppendEntries
  rw [if_neg (by omega)]
  split_ifs <;>
    simp [becomeFollower, applyCommittedEntries_spec] <;>
    split_ifs <;>
    simp [becomeFollower, applyCommittedEntries_spec]

/-- Witness for C10 at a concrete input: node C of term 1 voted for A, and
a term-1 heartbeat from B erases that vote. -/
theorem appendEntries_clears_vote_witness :
    c10node.votedFor = some ("A") ∧ c10node.currentTerm = 1 ∧ c10req.term = 1 ∧
    (handleAppendEntries c10node c10req).1.votedFor = none :=
  ⟨by decide, by decide, by decide,
    (appendEntries_clears_vote c10node c10req (by decide)).2.1⟩

/-- C7: whenever `tryCommit` moves `commitIndex` to an index `n`, the node
is Leader, the entry at `n` has the leader's current term (entries from
earlier terms are never committed directly by counting replicas), and the
leader plus the peers with `matchIndex ≥ n` reach the strict-majority
threshold; moreover `commitIndex` only moves up, to an existing index. -/
theorem tryCommit_majority_currentTerm (n : Node)
    (h : (tryCommit n).commitIndex ≠ n.commitIndex) :
    n.role = .Leader ∧
    termAt n.log (tryCommit n).commitIndex = n.currentTerm ∧
    countReplicas n (tryCommit n).commitIndex ≥ majority n ∧
    n.commitIndex < (tryCommit n).commitIndex ∧
    (tryCommit n).commitIndex ≤ n.log.length := by
  by_cases hr : n.role = .Leader
  · have hunf : tryCommit n = tryCommitLoop n n.log.length := by
      unfold tryCommit
      rw [if_neg (by simp [hr])]
    rw [hunf] at h ⊢
    rcases tryCommitLoop_cases n n.log.length with hc | ⟨k, h1, h2, h3, h4, h5⟩
    · rw [hc] at h; exact absurd rfl h
    · rw [h5]
      exact ⟨hr, h3, h4, h1, h2⟩
  · have hunf : tryCommit n = n := by
      unfold tryCommit
      rw [if_pos hr]
    rw [hunf] at h
    exact absurd rfl h

/-- Witness for C7 at a concrete input: a term-1 leader of a three-node
cluster whose index-1 entry is on the leader and peer B advances
`commitIndex` to 1, and that entry indeed has the current term with 2-of-3
replication. -/
theorem tryCommit_majority_currentTerm_witness :
    (tryCommit c7node).commitIndex = 1 ∧
    termAt c7node.log (tryCommit c7node).commitIndex = c7node.currentTerm ∧
    countReplicas c7node (tryCommit c7node).commitIndex ≥ majority c7node :=
  ⟨by decide, (tryCommit_majority_currentTerm c7node (by decide)).2.1,
    (tryCommit_majority_currentTerm c7node (by decide)).2.2.1⟩

/-- C1: election safety fails on the code.  On the concrete three-node
trace built above from `startElection`, `handleRequestVote`,
`handleVoteResponse` (the vote-counting callback that calls
`becomeLeader`), `mkAppendRequest` and `handleAppendEntries`, nodes A and
B both end up with role Leader in the same term 1: A wins the term with
C's vote, A's own term-1 heartbeat to C erases C's vote (see
`appendEntries_clears_vote`), and C then grants a second term-1 vote to B. -/
theorem election_safety_violated :
    nodeA2.role = .Leader ∧ nodeB2.role = .Leader ∧
    nodeA2.currentTerm = 1 ∧ nodeB2.currentTerm = 1 ∧
    nodeA2.nodeId ≠ nodeB2.nodeId ∧
    respCA.voteGranted = true ∧ respCB.voteGranted = true ∧
    nodeC2.votedFor = none := by
  decide

/-- C3 counterexample: a heartbeat (empty `entries`, `prevLogIndex = 0`) of
the follower's own term passes the consistency check and succeeds, yet the
follower's log is not `take prevLogIndex (prior log) ++ entries = []`: it
keeps its extra entry. -/
theorem appendEntries_success_log_cex :
    c3req.term ≥ c3node.currentTerm ∧ c3req.prevLogIndex = 0 ∧
    (handleAppendEntries c3node c3req).2.success = true ∧
    (handleAppendEntries c3node c3req).1.log ≠
      c3node.log.take c3req.prevLogIndex ++ c3req.entries := by
  refine ⟨by decide, by decide, ?_, ?_⟩ <;>
    simp [handleAppendEntries, c3node, c3req, initNode, termAt, becomeFollower]

/-- C3 amended: for every `AppendEntries` request with `term ≥ currentTerm`
whose log-consistency check passes, the call succeeds and, whenever
`entries` is nonempty, the resulting log is the first `prevLogIndex`
entries of the prior log followed exactly by `entries`; for an empty
`entries` list (heartbeat) the log is unchanged. -/
theorem appendEntries_success_log (n : Node) (request : AppendEntriesRequest)
    (hterm : request.term ≥ n.currentTerm)
    (hcheck : request.prevLogIndex = 0 ∨
      (request.prevLogIndex ≤ n.log.length ∧
        termAt n.log request.prevLogIndex = request.prevLogTerm)) :
    (handleAppendEntries n request).2.success = true ∧
    (handleAppendEntries n request).1.log =
      (if request.entries = [] then n.log
        else n.log.take request.prevLogIndex ++ request.entries) := by
  unfold handleAppendEntries
  rw [if_neg (by omega)]
  rw [if_neg (by
    rcases hcheck with h | h
    · simp [h]
    · simp only [becomeFollower]
      simp
      omega)]
  rw [if_neg (by
    rcases hcheck with h | h
    · simp [h]
    · simp only [becomeFollower]
      simp [h.2])]
  by_cases he : request.entries = []
  · simp [he, becomeFollower, applyCommittedEntries_spec]
    try split_ifs <;> simp [applyCommittedEntries_spec]
  · have hpos : 0 < request.entries.length := List.length_pos.mpr he
    simp [he, hpos, becomeFollower, applyCommittedEntries_spec]
    try split_ifs <;> simp [applyCommittedEntries_spec]

/-- Witness for C3 (amended) at a concrete input: a same-term request with
one entry and `prevLogIndex = 0` replaces the follower's log with exactly
that entry. -/
theorem appendEntries_success_log_witness :
    (handleAppendEntries c6node c6req).2.success = true ∧
    (handleAppendEntries c6node c6req).1.log = [entry1] := by
  have h := appendEntries_success_log c6node c6req (by decide) (Or.inl (by decide))
  refine ⟨h.1, ?_⟩
  rw [h.2]
  decide

/-- C4 counterexample: on a success response to a heartbeat (no entries
sent, `prevLogIndex = 0`) from a follower that holds an entry the leader
does not know about, the leader records `matchIndex[F] = 1`, the follower's
reported log length — not `prevLogIndex + len(entries sent) = 0`. -/
theorem leader_matchIndex_cex :
    c4resp.success = true ∧ c4req.entries = [] ∧ c4req.prevLogIndex = 0 ∧
    c4post.matchIndex.lookup ("F") = some 1 ∧
    (1 : Nat) ≠ c4req.prevLogIndex + c4req.entries.length := by
  decide

/-- C4 amended: the leader records `matchIndex[peer]` from the response's
`matchIndex` field (the follower's resulting log length), with
`prevLogIndex + len(entries sent)` only as a fallback; whenever the round
actually carried entries and succeeded the two agree, and then
`matchIndex[peer] = prevLogIndex + len(entries sent)`,
`nextIndex[peer] = matchIndex[peer] + 1`, and the leader runs `tryCommit`
on the updated state.  (For an empty round the recorded value is the
follower's log length, which the counterexample shows can differ.) -/
theorem leader_updates_progress (n f : Node) (p : String)
    (req : AppendEntriesRequest) (nextIdx : Nat) (n2 : Node)
    (outcome : ReplicateOutcome)
    (hreq : mkAppendRequest n p = (req, nextIdx))
    (hL : n.role = .Leader)
    (he : req.entries ≠ [])
    (hs : (handleAppendEntries f req).2.success = true)
    (hterm : ¬((handleAppendEntries f req).2.term > n.currentTerm))
    (hrun : processAppendResponse n p nextIdx req.prevLogIndex req.entries.length
        (handleAppendEntries f req).2 = (n2, outcome)) :
    n2.matchIndex.lookup p = some (req.prevLogIndex + req.entries.length) ∧
    n2.nextIndex.lookup p = some (req.prevLogIndex + req.entries.length + 1) ∧
    outcome = .updated ∧
    n2 = tryCommit { n with
      nextIndex := setKey n.nextIndex p (req.prevLogIndex + req.entries.length + 1)
      matchIndex := setKey n.matchIndex p (req.prevLogIndex + req.entries.length) } := by
  have hmi := appendEntries_matchIndex f req hs he
  unfold processAppendResponse at hrun
  rw [if_neg hterm, if_neg (by simp [hL]), if_pos hs, hmi] at hrun
  simp only [Option.getD_some] at hrun
  obtain ⟨hn2, hout⟩ := Prod.mk.injEq .. ▸ hrun
  refine ⟨?_, ?_, hout.symm ▸ rfl, hn2.symm⟩
  · rw [← hn2, (tryCommit_maps _).2]
    simp [setKey, List.lookup]
  · rw [← hn2, (tryCommit_maps _).1]
    simp [setKey, List.lookup]

/-- Witness for C4 (amended) at concrete inputs: the round from
`c4leaderNE` to a fresh follower carries one entry after
`prevLogIndex = 0`, succeeds, and the leader records
`matchIndex[F] = 1` and `nextIndex[F] = 2`. -/
theorem leader_updates_progress_witness :
    ((processAppendResponse c4leaderNE ("F") 1 c4wreq.prevLogIndex
        c4wreq.entries.length
        (handleAppendEntries c4followerNE c4wreq).2).1).matchIndex.lookup ("F") =
      some 1 ∧
    ((processAppendResponse c4leaderNE ("F") 1 c4wreq.prevLogIndex
        c4wreq.entries.length
        (handleAppendEntries c4followerNE c4wreq).2).1).nextIndex.lookup ("F") =
      some 2 := by
  have h := leader_updates_progress c4leaderNE c4followerNE ("F") c4wreq 1
    (processAppendResponse c4leaderNE ("F") 1 c4wreq.prevLogIndex
      c4wreq.entries.length (handleAppendEntries c4followerNE c4wreq).2).1
    (processAppendResponse c4leaderNE ("F") 1 c4wreq.prevLogIndex
      c4wreq.entries.length (handleAppendEntries c4followerNE c4wreq).2).2
    (by decide) (by decide) (by decide) (by decide) (by decide) rfl
  exact ⟨by rw [h.1]; decide, by rw [h.2.1]; decide⟩

/-- C5 counterexample: a same-term request whose `prevLogTerm` conflicts
with the follower's entry at index 1 — an index at or below `commitIndex`
— makes the conflict-truncation branch delete the committed entry. -/
theorem committed_entry_removed_cex :
    c5node.commitIndex = 1 ∧ c5node.log.get? 0 = some entry1 ∧
    (handleAppendEntries c5node c5req).1.log.get? 0 = none := by
  decide

/-- C5 amended: `handleAppendEntries` preserves every log entry at an index
at or below the pre-state `commitIndex` (same term and command), provided
the request does not place conflicting data inside the committed prefix:
if the consistency check finds a conflict at `prevLogIndex` then
`commitIndex < prevLogIndex`, and if entries are appended then
`commitIndex ≤ prevLogIndex`.  For arbitrary (unreachable) requests the
truncation can also delete committed entries, as the counterexample
shows. -/
theorem committed_entries_preserved (n : Node) (r : AppendEntriesRequest)
    (hConflict : (r.prevLogIndex > 0 ∧ r.prevLogIndex ≤ n.log.length ∧
        termAt n.log r.prevLogIndex ≠ r.prevLogTerm) →
      n.commitIndex < r.prevLogIndex)
    (hAppend : r.entries ≠ [] → n.commitIndex ≤ r.prevLogIndex) :
    ∀ i, i < n.commitIndex →
      (handleAppendEntries n r).1.log.get? i = n.log.get? i := by
  intro i hi
  unfold handleAppendEntries
  by_cases ht : r.term < n.currentTerm
  · rw [if_pos ht]
  · rw [if_neg ht]
    by_cases hA : r.prevLogIndex > 0 ∧ r.prevLogIndex > n.log.length
    · rw [if_pos (by simpa [becomeFollower] using hA)]
      simp [becomeFollower]
    · rw [if_neg (by simpa [becomeFollower] using hA)]
      by_cases hB : r.prevLogIndex > 0 ∧ termAt n.log r.prevLogIndex ≠ r.prevLogTerm
      · rw [if_pos (by simpa [becomeFollower] using hB)]
        have hlt : n.commitIndex < r.prevLogIndex :=
          hConflict ⟨hB.1, by omega, hB.2⟩
        simp only [becomeFollower, List.get?_eq_getElem?]
        exact List.getElem?_take_of_lt (by omega)
      · rw [if_neg (by simpa [becomeFollower] using hB)]
        by_cases he : r.entries = []
        · simp [he, becomeFollower, applyCommittedEntries_spec]
          try split_ifs <;> simp [applyCommittedEntries_spec]
        · have hpos : 0 < r.entries.length := List.length_pos.mpr he
          have hle : n.commitIndex ≤ r.prevLogIndex := hAppend he
          have hp : r.prevLogIndex ≤ n.log.length := by omega
          simp only [becomeFollower]
          simp only [hpos, if_true, gt_iff_lt]
          have hgoal : (n.log.take r.prevLogIndex ++ r.entries)[i]? = n.log[i]? := by
            rw [List.getElem?_append_left (by
              rw [List.length_take]
              omega)]
            exact List.getElem?_take_of_lt (by omega)
          split_ifs <;> simp [applyCommittedEntries_spec, hgoal]

/-- Witness for C5 (amended) at a concrete input: a consistent request
appending at index 2 satisfies both side conditions on a node with
`commitIndex = 1`, and the committed entry at index 1 survives. -/
theorem committed_entries_preserved_witness :
    c5node.commitIndex = 1 ∧
    (handleAppendEntries c5node c5wreq).1.log.get? 0 = c5node.log.get? 0 :=
  ⟨by decide,
    committed_entries_preserved c5node c5wreq (by decide) (by decide) 0 (by decide)⟩

/-- C6 counterexample: a same-term request that rewrites the log from
index 1 with one entry while advertising `leaderCommit = 3` drives
`commitIndex` from 2 down to 1 and leaves `lastApplied = 2 > commitIndex`,
so `handleAppendEntries` neither preserves the invariant nor keeps
`commitIndex` monotone on arbitrary pre-state/request pairs. -/
theorem inv_not_preserved_cex :
    StateInv c6node ∧
    (handleAppendEntries c6node c6req).1.commitIndex < c6node.commitIndex ∧
    ¬ StateInv (handleAppendEntries c6node c6req).1 := by
  decide

/-- C6 amended: from any state satisfying `lastApplied ≤ commitIndex ≤
len(log)`, the operations `submitCommand`, `handleRequestVote`,
`tryCommit` and the apply loop preserve the invariant and never decrease
`commitIndex`; `handleAppendEntries` does so as well provided the request
does not rewrite the committed prefix, namely: a conflict at
`prevLogIndex` implies `commitIndex < prevLogIndex`, and appended entries
satisfy `commitIndex ≤ prevLogIndex + len(entries)`.  The counterexample
shows the restriction on `handleAppendEntries` is necessary. -/
theorem operations_preserve_inv (n : Node) (hInv : StateInv n) :
    (∀ c, StateInv (submitCommand n c).1 ∧
      n.commitIndex ≤ (submitCommand n c).1.commitIndex) ∧
    (∀ r, StateInv (handleRequestVote n r).1 ∧
      (handleRequestVote n r).1.commitIndex = n.commitIndex) ∧
    (∀ r : AppendEntriesRequest,
      ((r.prevLogIndex > 0 ∧ r.prevLogIndex ≤ n.log.length ∧
          termAt n.log r.prevLogIndex ≠ r.prevLogTerm) →
        n.commitIndex < r.prevLogIndex) →
      (r.entries ≠ [] → n.commitIndex ≤ r.prevLogIndex + r.entries.length) →
      StateInv (handleAppendEntries n r).1 ∧
      n.commitIndex ≤ (handleAppendEntries n r).1.commitIndex) ∧
    (StateInv (tryCommit n) ∧ n.commitIndex ≤ (tryCommit n).commitIndex) ∧
    (StateInv (applyCommittedEntries n) ∧
      (applyCommittedEntries n).commitIndex = n.commitIndex) := by
  obtain ⟨hac, hcl⟩ := hInv
  refine ⟨?_, ?_, ?_, ?_, ?_⟩
  · -- submitCommand
    intro c
    unfold submitCommand
    by_cases hr : n.role = .Leader
    · rw [if_neg (by simp [hr])]
      by_cases hp : n.peers.length = 0 <;>
        simp [hp, applyCommittedEntries_spec, StateInv] <;> omega
    · rw [if_pos hr]
      cases hl : n.leaderId <;> simp [StateInv] <;> omega
  · -- handleRequestVote
    intro r
    simp only [handleRequestVote, becomeFollower]
    split_ifs <;> simp [StateInv] <;> omega
  · -- handleAppendEntries
    intro r hConflict hAppend
    unfold handleAppendEntries
    by_cases ht : r.term < n.currentTerm
    · rw [if_pos ht]
      exact ⟨⟨hac, hcl⟩, Nat.le_refl _⟩
    · rw [if_neg ht]
      by_cases hA : r.prevLogIndex > 0 ∧ r.prevLogIndex > n.log.length
      · rw [if_pos (by simpa [becomeFollower] using hA)]
        simp [becomeFollower, StateInv]
        omega
      · rw [if_neg (by simpa [becomeFollower] using hA)]
        by_cases hB : r.prevLogIndex > 0 ∧ termAt n.log r.prevLogIndex ≠ r.prevLogTerm
        · rw [if_pos (by simpa [becomeFollower] using hB)]
          have hlt : n.commitIndex < r.prevLogIndex :=
            hConflict ⟨hB.1, by omega, hB.2⟩
          simp [becomeFollower, StateInv, List.length_take]
          omega
        · rw [if_neg (by simpa [becomeFollower] using hB)]
          by_cases he : r.entries = []
          · simp only [becomeFollower, he]
            simp [applyCommittedEntries_spec, StateInv]
            split_ifs <;> simp [applyCommittedEntries_spec] <;> omega
          · have hpos : 0 < r.entries.length := List.length_pos.mpr he
            have hle : n.commitIndex ≤ r.prevLogIndex + r.entries.length := hAppend he
            simp only [becomeFollower]
            simp only [hpos, if_true, gt_iff_lt]
            split_ifs <;>
              simp [applyCommittedEntries_spec, StateInv, List.length_take,
                List.length_append] <;>
              omega
  · -- tryCommit
    by_cases hr : n.role = .Leader
    · have hunf : tryCommit n = tryCommitLoop n n.log.length := by
        unfold tryCommit
        rw [if_neg (by simp [hr])]
      rw [hunf]
      rcases tryCommitLoop_cases n n.log.length with hc | ⟨k, h1, h2, h3, h4, h5⟩
      · rw [hc]
        exact ⟨⟨hac, hcl⟩, Nat.le_refl _⟩
      · rw [h5]
        refine ⟨⟨?_, ?_⟩, ?_⟩ <;> simp <;> omega
    · have hunf : tryCommit n = n := by
        unfold tryCommit
        rw [if_pos hr]
      rw [hunf]
      exact ⟨⟨hac, hcl⟩, Nat.le_refl _⟩
  · -- applyCommittedEntries
    rw [applyCommittedEntries_spec]
    exact ⟨⟨by simp; omega, by simp; omega⟩, rfl⟩

/-- Witness for C6 (amended) at concrete inputs: the term-1 leader
`c7node` satisfies the invariant; the invariant survives its `tryCommit`
and survives an accepted heartbeat (whose side conditions hold
vacuously). -/
theorem operations_preserve_inv_witness :
    StateInv c7node ∧ StateInv (tryCommit c7node) ∧
    StateInv (handleAppendEntries c7node c10req).1 ∧
    StateInv (submitCommand c7node cmd0).1 :=
  ⟨by decide,
    ((operations_preserve_inv c7node (by decide)).2.2.2.1).1,
    ((operations_preserve_inv c7node (by decide)).2.2.1 c10req
      (by decide) (by decide)).1,
    ((operations_preserve_inv c7node (by decide)).1 cmd0).1⟩

/-- C9: `submitCommand` fails with an error exactly when the role is not
Leader; in that case the error names the last known leader id when one is
known, the whole node state is unchanged, and no RPC is sent. -/
theorem submitCommand_notLeader (n : Node) (c : Command) :
    ((submitCommand n c).2.1.isErr = true ↔ n.role ≠ .Leader) ∧
    (n.role ≠ .Leader →
      (submitCommand n c).1 = n ∧ (submitCommand n c).2.2 = [] ∧
      (submitCommand n c).2.1 = .error (match n.leaderId with
        | some l => "Not leader. Current leader: " ++ l
        | none => "No leader available")) := by
  unfold submitCommand
  by_cases h : n.role = .Leader
  · rw [if_neg (by simp [h])]
    by_cases hp : n.peers.length = 0 <;>
      simp [h, hp, SubmitResult.isErr, applyCommittedEntries_spec]
  · rw [if_pos h]
    cases hl : n.leaderId <;> simp [h, hl, SubmitResult.isErr]

/-- Witness for C9 at a concrete input: a Follower that knows leader L gets
an immediate error naming L and keeps its state. -/
theorem submitCommand_notLeader_witness :
    c9node.role ≠ .Leader ∧ (submitCommand c9node cmd0).1 = c9node ∧
    (submitCommand c9node cmd0).2.1 = .error ("Not leader. Current leader: L") :=
  ⟨by decide, ((submitCommand_notLeader c9node cmd0).2 (by decide)).1,
    by
      have h := ((submitCommand_notLeader c9node cmd0).2 (by decide)).2.2
      simpa using h⟩

/-- C8: on a Leader with no peers, `submitCommand c` appends the entry
`(currentTerm, len(log)+1, c)`, commits it synchronously, returns success
with that index, sends no RPCs, and advances `commitIndex` by exactly one.
The hypothesis `commitIndex = len(log)` holds in every reachable state of a
single-node cluster: it holds initially (0 = 0) and the fast path of every
submission re-establishes it. -/
theorem submitCommand_singleNode (n : Node) (c : Command)
    (hRole : n.role = .Leader) (hPeers : n.peers = [])
    (hCI : n.commitIndex = n.log.length) :
    (submitCommand n c).1.log =
      n.log ++ [{ term := n.currentTerm, index := n.log.length + 1, command := c }] ∧
    (submitCommand n c).2.1 = .committed (n.log.length + 1) ∧
    (submitCommand n c).2.2 = [] ∧
    (submitCommand n c).1.commitIndex = n.commitIndex + 1 := by
  unfold submitCommand
  rw [if_neg (by simp [hRole])]
  rw [if_pos (by simp [hPeers])]
  simp [applyCommittedEntries_spec, hCI]

/-- Witness for C8 at a concrete input: a fresh single-node leader commits
index 1 synchronously with no RPCs. -/
theorem submitCommand_singleNode_witness :
    c8node.role = .Leader ∧ c8node.peers = [] ∧
    (submitCommand c8node cmd0).2.1 = .committed 1 ∧
    (submitCommand c8node cmd0).2.2 = [] ∧
    (submitCommand c8node cmd0).1.commitIndex = 1 := by
  have h := submitCommand_singleNode c8node cmd0 (by decide) (by decide) (by decide)
  exact ⟨by decide, by decide, by simpa using h.2.1, h.2.2.1, by simpa using h.2.2.2⟩

end TicketChainRaft
